import Mathlib

/-!
A verification development for the dataset module of rawgraphs-core
(`src/dataset.js`): the type-inference engine (`inferTypes`) and the
tolerant dataset parser (`parseDataset`).

The JavaScript code is shallowly embedded: JS values are an inductive
`RawValue` (numbers as integers plus a NaN sentinel, dates as instants plus
an Invalid Date sentinel), JS objects are association lists, thrown
exceptions are `Except.error`, and `null`/`undefined` are a single `vnull`
marker (the embedded code treats the two alike at every point the model
reaches).  Functions imported from `./utils` (`getType`, `RAWError`) are not
part of the sources and are modelled from the spec; every such definition
says so in its doc comment.
-/

set_option maxHeartbeats 1000000

namespace RawGraphs

/-- Primitive type tags, standing for the JavaScript constructor functions
`Number`, `Boolean`, `String` and `Date`. -/
inductive PrimTag
  | pnumber
  | pboolean
  | pstring
  | pdate
deriving DecidableEq

/-- A JavaScript number: an integer value or the NaN sentinel.  Numeric
payloads are modelled on integers. -/
inductive JNum
  | num (n : Int)
  | nan
deriving DecidableEq

/-- A JavaScript `Date` instance: a valid instant (timestamp) or the
Invalid Date object. -/
inductive JDate
  | valid (t : Int)
  | invalid
deriving DecidableEq

/-- A raw JavaScript value appearing in an input record or a parsed cell.
`vnull` stands for both `null` and `undefined`. -/
inductive RawValue
  | vnull
  | vnum (n : JNum)
  | vbool (b : Bool)
  | vstr (s : String)
  | vdate (d : JDate)
deriving DecidableEq

/-- An input record / a parsed row: a JavaScript object, modelled as an
association list from field name to raw value (first binding wins, matching
the uniqueness of JS object keys). -/
abbrev Record := List (String × RawValue)

/-- A loosely-typed type descriptor as the JavaScript code passes it around:
a constructor function, a string tag (e.g. `"number"`), a plain object
`{ type: "date", dateFormat: fmt }`, or a plain object `{ decode: f }`
carrying a custom conversion function.  (A plain object `{ type: T }`
without `decode`/`dateFormat` behaves exactly as its tag and is represented
by the tag itself.) -/
inductive JSType
  | ctor (t : PrimTag)
  | jstr (s : String)
  | jobj (fmt : String)
  | jfun (f : RawValue → RawValue)

/-- A type map: column name to type descriptor. -/
abbrev TypeMap := List (String × JSType)

/-- First-binding association-list lookup, the JS `obj[k]` read. -/
def lookupVal {α : Type} (l : List (String × α)) (k : String) : Option α :=
  (l.find? (fun e => e.1 == k)).map Prod.snd

/-- First-seen de-duplication of a key list; models `Object.keys` insertion
order on an object built by repeated assignment. -/
def dedupKeys : List String → List String
  | [] => []
  | k :: rest => k :: (dedupKeys rest).filter (fun x => x != k)

/-- `Object.keys(row)`. -/
def jsKeys (row : Record) : List String :=
  dedupKeys (row.map Prod.fst)

/-- The lodash `get(row, k)`: a missing key reads as `undefined` (`vnull`).
Nested dotted paths reduce to a flat lookup in this model. -/
def jsGet (row : Record) (k : String) : RawValue :=
  ((row.find? (fun e => e.1 == k)).map Prod.snd).getD RawValue.vnull

/-- Whitespace as JavaScript trimming sees it (ASCII subset). -/
def isWS (c : Char) : Bool :=
  c == ' ' || c == '\t' || c == '\n' || c == '\r'

/-- Modelled: `String.prototype.trim`, over the character data. -/
def trimStr (s : String) : String :=
  ⟨((s.data.dropWhile isWS).reverse.dropWhile isWS).reverse⟩

/-- Modelled: `String.prototype.toLowerCase`, over the character data. -/
def lowerStr (s : String) : String :=
  ⟨s.data.map Char.toLower⟩

/-- A nonempty all-digit character list read as a natural number. -/
def natOfDigits (l : List Char) : Option Nat :=
  if l.isEmpty then none
  else if l.all Char.isDigit then
    some (l.foldl (fun n c => n * 10 + (c.toNat - 48)) 0)
  else none

/-- Modelled: the integer-literal grammar shared by the `Number(s)` and
`JSON.parse` models — an optional minus sign followed by digits. -/
def intOfStr (s : String) : Option Int :=
  match s.data with
  | '-' :: rest => (natOfDigits rest).map (fun n => -(n : Int))
  | l => (natOfDigits l).map (fun n => (n : Int))

/-- Modelled: JavaScript string-to-number conversion used by `Number(s)`
(blank strings convert to `0`; the numeric grammar is modelled on integer
literals; anything else is NaN). -/
def strToJNum (s : String) : JNum :=
  let t := trimStr s
  if t = "" then JNum.num 0
  else
    match intOfStr t with
    | some n => JNum.num n
    | none => JNum.nan

/-- Modelled: JavaScript `Number(value)` coercion. -/
def jsToNumber : RawValue → JNum
  | .vnull => JNum.num 0
  | .vnum n => n
  | .vbool b => if b then JNum.num 1 else JNum.num 0
  | .vstr s => strToJNum s
  | .vdate (.valid t) => JNum.num t
  | .vdate .invalid => JNum.nan

/-- JavaScript truthiness, `Boolean(value)`. -/
def jsToBool : RawValue → Bool
  | .vnull => false
  | .vnum (.num n) => n != 0
  | .vnum .nan => false
  | .vbool b => b
  | .vstr s => s != ""
  | .vdate _ => true

/-- Modelled: JavaScript `String(value)` coercion.  The renderings of
numbers and dates are schematic; only `"null"` and `"NaN"` are load-bearing
(inside `checkType` error messages). -/
def jsToString : RawValue → String
  | .vnull => "null"
  | .vnum (.num n) => toString n
  | .vnum .nan => "NaN"
  | .vbool b => if b then "true" else "false"
  | .vstr s => s
  | .vdate (.valid t) => "Date(" ++ toString t ++ ")"
  | .vdate .invalid => "Invalid Date"

/-- The global `isNaN(value)` (coercing).  The only `vnull` it can meet in
the embedded code is a genuine JS `null` (from `basicGetter`), for which
`isNaN(null)` is `false`. -/
def jsIsNaN (v : RawValue) : Bool :=
  match jsToNumber v with
  | .nan => true
  | .num _ => false

/-- lodash `isNumber`. -/
def isNumberV : RawValue → Bool
  | .vnum _ => true
  | _ => false

/-- lodash `isBoolean`. -/
def isBooleanV : RawValue → Bool
  | .vbool _ => true
  | _ => false

/-- lodash `isDate` / `value instanceof Date` (Invalid Date included). -/
def isDateV : RawValue → Bool
  | .vdate _ => true
  | _ => false

/-- Modelled: parsing a string against a dayjs pattern with the
`customParseFormat` plugin.  Only the fixed pattern `YYYY-MM-DD` used by
`getValueType` is given a concrete grammar (up to four digits, dash, up to
two digits, dash, up to two digits, as the non-strict token match accepts);
other patterns are modelled as failing.  The produced instant is an
injective encoding of the parsed digits; its exact value is irrelevant. -/
def splitDash : List Char → List (List Char)
  | [] => [[]]
  | c :: rest =>
    let r := splitDash rest
    if c = '-' then [] :: r
    else
      match r with
      | [] => [[c]]
      | h :: t => (c :: h) :: t

def parseWithFormat (fmt s : String) : Option Int :=
  if fmt = "YYYY-MM-DD" then
    match splitDash s.data with
    | [y, m, d] =>
      if y.length ≤ 4 ∧ m.length ≤ 2 ∧ d.length ≤ 2 then
        match natOfDigits y, natOfDigits m, natOfDigits d with
        | some yn, some mn, some dn =>
          some ((yn : Int) * 10000 + (mn : Int) * 100 + (dn : Int))
        | _, _, _ => none
      else none
    | _ => none
  else none

/-- Modelled: the formatter `(value) => dayjs(value, dateFormat).utc().toDate()`.
A `null`/`undefined` input and any unparsable string produce an Invalid
Date; a numeric input is a timestamp; a `Date` input is cloned. -/
def dayjsFormatToDate (fmt : String) (v : RawValue) : RawValue :=
  RawValue.vdate
    (match v with
     | .vstr s =>
       match parseWithFormat fmt s with
       | some t => JDate.valid t
       | none => JDate.invalid
     | .vnum (.num n) => JDate.valid n
     | .vnum .nan => JDate.invalid
     | .vdate d => d
     | .vbool _ => JDate.invalid
     | .vnull => JDate.invalid)

/-- `dayjs(value, fmt).utc().isValid()`, the test inside `getValueType`. -/
def dayjsFormatIsValid (fmt : String) (v : RawValue) : Bool :=
  match dayjsFormatToDate fmt v with
  | .vdate (.valid _) => true
  | _ => false

/-- Modelled: `dayjs(value).isValid()` as used in `checkType`.  It is only
reached when `value` is a `Date` instance, the `instanceof` disjunct
short-circuiting otherwise. -/
def dayjsIsValidOn : RawValue → Bool
  | .vdate (.valid _) => true
  | _ => false

/-- Modelled: `JSON.parse` restricted to the literals the inference path can
meet (numeric literals modelled on integers).  `none` stands for a thrown
`SyntaxError`, which the caller swallows, keeping the original value. -/
def parseJsonLiteral (s : String) : Option RawValue :=
  let t := trimStr s
  if t = "true" then some (RawValue.vbool true)
  else if t = "false" then some (RawValue.vbool false)
  else if t = "null" then some RawValue.vnull
  else
    match intOfStr t with
    | some n => some (RawValue.vnum (JNum.num n))
    | none => none

/-- `JSON.parse(value)` on a raw value (non-strings are coerced to their
string rendering first, so numbers, booleans and `null` re-parse to
themselves while a `Date` fails). -/
def jsonParse : RawValue → Option RawValue
  | .vstr s => parseJsonLiteral s
  | .vnum (.num n) => some (RawValue.vnum (JNum.num n))
  | .vnum .nan => none
  | .vbool b => some (RawValue.vbool b)
  | .vnull => some RawValue.vnull
  | .vdate _ => none

/-- `getValueType(value, strict)` from dataset.js: the per-value type guess.
With `strict` false a JSON reading is tried first; then number, boolean,
date-instance, the fixed-pattern date test, and finally `"string"`. -/
def getValueType (value : RawValue) (strict : Bool) : JSType :=
  let jsonValue := if strict then value else (jsonParse value).getD value
  if isNumberV jsonValue then JSType.jstr "number"
  else if isBooleanV jsonValue then JSType.jstr "boolean"
  else if isDateV value then JSType.jstr "date"
  else if dayjsFormatIsValid "YYYY-MM-DD" value then JSType.jobj "YYYY-MM-DD"
  else JSType.jstr "string"

/-- The `name` property of a constructor function. -/
def ctorName : PrimTag → String
  | .pnumber => "Number"
  | .pboolean => "Boolean"
  | .pstring => "String"
  | .pdate => "Date"

/-- `castTypeToString(type)` from dataset.js:
`type.name ? type.name.toLowerCase() : type`.  Only a constructor function
has a `name`; strings and plain objects pass through unchanged. -/
def castTypeToString (type : JSType) : JSType :=
  match type with
  | .ctor t => JSType.jstr (lowerStr (ctorName t))
  | t => t

/-- Coercion of a value to a JavaScript property key, as happens when the
value indexes an object (`counts[type]` in `inferTypes`): a string keys as
itself, every plain object stringifies to `"[object Object]"`.  (The
function cases are never used as keys; their rendering is schematic.) -/
def jsPropKey : JSType → String
  | .jstr s => s
  | .jobj _ => "[object Object]"
  | .ctor t => "function " ++ ctorName t
  | .jfun _ => "function"

/-- The property-key list of a candidate list, in scan order. -/
def keyList (cands : List JSType) : List String :=
  cands.map jsPropKey

/-- One tally slot of `counts` in `inferTypes`: the property key, the
running count, and the `value` field (the first candidate stored under the
key). -/
abbrev TallyEntry := String × Nat × JSType

/-- One step of building `counts`: `counts[type]` is created on first sight
(storing the candidate as `value`), then its count is incremented. -/
def bump (acc : List TallyEntry) (c : JSType) : List TallyEntry :=
  if acc.any (fun e => e.1 == jsPropKey c) then
    acc.map (fun e => if e.1 == jsPropKey c then (e.1, e.2.1 + 1, e.2.2) else e)
  else acc ++ [(jsPropKey c, 1, c)]

/-- The `counts` object built by the `forEach` over a column's candidates;
entries are in first-seen key order, as `Object.keys` will list them. -/
def tally (cands : List JSType) : List TallyEntry :=
  cands.foldl bump []

/-- One step of lodash `maxBy`: keep the current best unless the next
element is strictly greater. -/
def maxStep (best : Option TallyEntry) (e : TallyEntry) : Option TallyEntry :=
  match best with
  | none => some e
  | some b => if b.2.1 < e.2.1 then some e else some b

/-- lodash `maxBy(Object.keys(counts), t => counts[t].count)`, fused with
the final `counts[mostFrequentTypeKey]` read: the first entry (in key
insertion order) whose count no later entry strictly exceeds. -/
def maxEntry (l : List TallyEntry) : Option TallyEntry :=
  l.foldl maxStep none

/-- The per-column body of the second loop of `inferTypes`: tally the
candidates and take the `value` of the most frequent key.  (`none` never
occurs: every column has at least one candidate.) -/
def voteWinner (cands : List JSType) : Option JSType :=
  (maxEntry (tally cands)).map (fun e => e.2.2)

/-- One `candidateTypes[key].push(c)` step, creating the slot on first
sight (JS object insertion order). -/
def addCandidate (acc : List (String × List JSType)) (k : String) (c : JSType) :
    List (String × List JSType) :=
  if acc.any (fun e => e.1 == k) then
    acc.map (fun e => if e.1 == k then (e.1, e.2 ++ [c]) else e)
  else acc ++ [(k, [c])]

/-- The `candidateTypes` object built by the first double loop of
`inferTypes`: for every row, for every key of the row, push the cast
candidate for that cell's value. -/
def collectCandidates (rows : List Record) (strict : Bool) :
    List (String × List JSType) :=
  rows.foldl
    (fun acc datum =>
      (jsKeys datum).foldl
        (fun acc2 k =>
          addCandidate acc2 k (castTypeToString (getValueType (jsGet datum k) strict)))
        acc)
    []

/-- The `data` argument of `inferTypes`/`parseDataset`: an array of records,
or any non-array value (`other`), which `Array.isArray` rejects and which
has no `map` method. -/
inductive JSData
  | arr (rows : List Record)
  | other

/-- `inferTypes(data, strict)` from dataset.js: candidate collection followed
by the per-column majority vote.  (The `map` dropping a `none` winner is
unreachable: every collected column has a nonempty candidate list, so
`maxBy` never returns `undefined`.) -/
def inferTypes (data : JSData) (strict : Bool) : TypeMap :=
  match data with
  | .other => []
  | .arr rows =>
    (collectCandidates rows strict).filterMap
      (fun e => (voteWinner e.2).map (fun v => (e.1, v)))

/-- Modelled from the spec: `getType` is imported from `./utils`, which is
not under `src/`.  Per the spec's data model, a descriptor resolves to its
primitive constructor: a plain object resolves through its `type`/date tag,
a string tag through a lowercase switch defaulting to `String`, a
constructor to itself; a bare `{ decode }` object resolves through its
absent `type` field to `undefined` (`none`). -/
def tagOfString (s : String) : PrimTag :=
  let t := lowerStr s
  if t = "number" then PrimTag.pnumber
  else if t = "boolean" then PrimTag.pboolean
  else if t = "date" then PrimTag.pdate
  else PrimTag.pstring

/-- Modelled from the spec: see `tagOfString`. -/
def getType : JSType → Option PrimTag
  | .ctor t => some t
  | .jstr s => some (tagOfString s)
  | .jobj _ => some PrimTag.pdate
  | .jfun _ => none

/-- `getFormatter(dataType)` from dataset.js: a custom `decode` function is
used verbatim; a Date descriptor with a string `dateFormat` gets the dayjs
formatter; everything else (constructors and string tags are not plain
objects) gets no formatter.  The `dataType.type === Boolean` branch of the
source is an empty block. -/
def getFormatter (dataType : JSType) : Option (RawValue → RawValue) :=
  match dataType with
  | .jfun f => some f
  | .jobj fmt => some (dayjsFormatToDate fmt)
  | _ => none

/-- `basicGetter(rowValue, dataType)` from dataset.js: `null`/`undefined`
short-circuit to `null`; otherwise the conversion function is applied. -/
def basicGetter (rowValue : RawValue) (dataType : RawValue → RawValue) : RawValue :=
  match rowValue with
  | .vnull => RawValue.vnull
  | v => dataType v

/-- Modelled: calling the resolved constructor on a value, `type(rowValue)`.
Calling `Date` without `new` ignores its argument and returns the current
time as a plain string; its content is never observed, because `checkType`
rejects any non-`Date` result.  The `none` case (calling `undefined`) is
unreachable: a descriptor without a formatter always resolves to a
constructor. -/
def jsCallType (type : Option PrimTag) (v : RawValue) : RawValue :=
  match type with
  | some .pnumber => RawValue.vnum (jsToNumber v)
  | some .pboolean => RawValue.vbool (jsToBool v)
  | some .pstring => RawValue.vstr (jsToString v)
  | some .pdate => RawValue.vstr "current time"
  | none => v

/-- `checkType(value, type)` from dataset.js: a Number result must not be
NaN; a Date result must be a valid `Date` instance.  A thrown `RAWError` is
modelled as `Except.error` carrying its message. -/
def checkType (value : RawValue) (type : Option PrimTag) : Except String Unit :=
  if type = some PrimTag.pnumber ∧ jsIsNaN value = true then
    Except.error ("invalid type number for value " ++ jsToString value)
  else if type = some PrimTag.pdate ∧ (isDateV value = false ∨ dayjsIsValidOn value = false) then
    Except.error ("invalid type date for value " ++ jsToString value)
  else Except.ok ()

/-- A single missing type-map entry read; the default is unreachable since
keys are drawn from the map itself. -/
def lookupType (types : TypeMap) (k : String) : JSType :=
  (lookupVal types k).getD (JSType.jstr "string")

/-- The per-column getter `propGetters[k]` built by `rowParser`, applied to
one row: fetch, format, convert through `basicGetter`, then validate with
`checkType`. -/
def cellGetter (types : TypeMap) (k : String) (row : Record) : Except String RawValue :=
  let dataType := lookupType types k
  let type := getType dataType
  let formatter := getFormatter dataType
  let rowValue := jsGet row k
  let formattedValue :=
    match formatter with
    | some f => f rowValue
    | none => rowValue
  let out := basicGetter formattedValue
    (match formatter with
     | some _ => fun x => x
     | none => jsCallType type)
  match checkType out type with
  | .ok _ => Except.ok out
  | .error e => Except.error e

/-- The row function returned by `rowParser(types, onError)`: every column
getter runs under its own try/catch; a failing cell contributes `null` to
the row and its error (keyed by column, in column order) to the row's error
object. -/
def rowParser (types : TypeMap) (row : Record) : Record × List (String × String) :=
  (dedupKeys (types.map Prod.fst)).foldl
    (fun acc k =>
      match cellGetter types k row with
      | .ok v => (acc.1 ++ [(k, v)], acc.2)
      | .error e => (acc.1 ++ [(k, RawValue.vnull)], acc.2 ++ [(k, e)]))
    ([], [])

/-- One entry of the error list: `{row: i, error}`. -/
structure RowError where
  row : Nat
  error : List (String × String)
deriving DecidableEq

/-- The `data.map(parser)` loop of `parseRows` with its `onError` push: rows
are converted in order; a row whose error object is nonempty appends one
`{row: i, error}` entry. -/
def parseRowsGo (types : TypeMap) : Nat → List Record → List Record × List RowError
  | _, [] => ([], [])
  | i, r :: rest =>
    let p := rowParser types r
    let q := parseRowsGo types (i + 1) rest
    (p.1 :: q.1, (if p.2.isEmpty then [] else [⟨i, p.2⟩]) ++ q.2)

/-- `parseRows(data, dataTypes)` from dataset.js. -/
def parseRows (data : List Record) (types : TypeMap) : List Record × List RowError :=
  parseRowsGo types 0 data

/-- The Parser Result triple. -/
structure ParserResult where
  dataset : List Record
  dataTypes : TypeMap
  errors : List RowError

/-- `types || inferTypes(data)`: an omitted (or `undefined`) `types`
argument falls back to non-strict inference. -/
def resolveTypes (data : JSData) (types : Option TypeMap) : TypeMap :=
  match types with
  | some t => t
  | none => inferTypes data false

/-- `parseDataset(data, types)` from dataset.js.  On a non-array `data`,
`data.map` is not a function and the call throws a TypeError, modelled as
`Except.error`. -/
def parseDataset (data : JSData) (types : Option TypeMap) : Except String ParserResult :=
  let dataTypes := resolveTypes data types
  match data with
  | .arr rows =>
    let p := parseRows rows dataTypes
    Except.ok ⟨p.1, dataTypes, p.2⟩
  | .other => Except.error "TypeError: data.map is not a function"

/-- First-occurrence index of a key in a key list (list length when
absent). -/
def firstIdx : List String → String → Nat
  | [], _ => 0
  | a :: rest, κ => if a = κ then 0 else firstIdx rest κ + 1

/-! ### Helper lemmas about the embedded record and parser operations -/

theorem checkType_vnull (t : Option PrimTag) :
    checkType RawValue.vnull t =
      if t = some PrimTag.pdate then Except.error "invalid type date for value null"
      else Except.ok () := by
  rcases t with _ | t
  · rfl
  · cases t <;> rfl

theorem dedupKeys_nodup (l : List String) : (dedupKeys l).Nodup := by
  induction l with
  | nil => simp [dedupKeys]
  | cons k l ih =>
    simp only [dedupKeys]
    refine List.nodup_cons.mpr ⟨?_, ih.filter _⟩
    intro hmem
    have h := List.of_mem_filter hmem
    simp at h

theorem find?_key_of_mem {α : Type} {l : List (String × α)} {a : String} {b : α}
    (hn : (l.map Prod.fst).Nodup) (hm : (a, b) ∈ l) :
    l.find? (fun e => e.1 == a) = some (a, b) := by
  induction l with
  | nil => simp at hm
  | cons p l ih =>
    simp only [List.map_cons, List.nodup_cons] at hn
    rcases List.mem_cons.mp hm with h | h
    · subst h
      simp [List.find?]
    · have hne : (p.1 == a) = false := by
        rw [beq_eq_false_iff_ne]
        intro hpa
        exact hn.1 (hpa ▸ List.mem_map_of_mem Prod.fst h)
      simpa [List.find?, hne] using ih hn.2 h

theorem jsGet_of_mem {row : Record} {k : String} {v : RawValue}
    (hn : (row.map Prod.fst).Nodup) (hm : (k, v) ∈ row) : jsGet row k = v := by
  unfold jsGet
  rw [find?_key_of_mem hn hm]
  rfl

/-- Behaviour of the `forEach` over `Object.keys(propGetters)` in the row
function built by `rowParser`: it appends one cell per key (the getter's
value, or `null` on a caught error) and one error entry per failing cell. -/
theorem rowParser_fold (types : TypeMap) (row : Record) (ks : List String) :
    ∀ acc : Record × List (String × String),
      ∃ newOut newErr,
        ks.foldl
          (fun acc k =>
            match cellGetter types k row with
            | .ok v => (acc.1 ++ [(k, v)], acc.2)
            | .error e => (acc.1 ++ [(k, RawValue.vnull)], acc.2 ++ [(k, e)]))
          acc = (acc.1 ++ newOut, acc.2 ++ newErr) ∧
        newOut.map Prod.fst = ks ∧
        (∀ p ∈ newOut,
          cellGetter types p.1 row = Except.ok p.2 ∨
            (p.2 = RawValue.vnull ∧ ∃ e, cellGetter types p.1 row = Except.error e)) ∧
        (∀ q ∈ newErr,
          (q.1, RawValue.vnull) ∈ newOut ∧ cellGetter types q.1 row = Except.error q.2) := by
  induction ks with
  | nil =>
    intro acc
    exact ⟨[], [], by simp, rfl, by simp, by simp⟩
  | cons k ks ih =>
    intro acc
    simp only [List.foldl_cons]
    cases hc : cellGetter types k row with
    | ok v =>
      obtain ⟨nO, nE, heq, hkeys, hout, herr⟩ := ih (acc.1 ++ [(k, v)], acc.2)
      refine ⟨(k, v) :: nO, nE, ?_, ?_, ?_, ?_⟩
      · simp only [hc]
        rw [heq]
        simp
      · simp [hkeys]
      · intro p hp
        rcases List.mem_cons.mp hp with h | h
        · subst h
          exact Or.inl hc
        · exact hout p h
      · intro q hq
        obtain ⟨h1, h2⟩ := herr q hq
        exact ⟨List.mem_cons_of_mem _ h1, h2⟩
    | error e =>
      obtain ⟨nO, nE, heq, hkeys, hout, herr⟩ := ih (acc.1 ++ [(k, RawValue.vnull)], acc.2 ++ [(k, e)])
      refine ⟨(k, RawValue.vnull) :: nO, (k, e) :: nE, ?_, ?_, ?_, ?_⟩
      · simp only [hc]
        rw [heq]
        simp
      · simp [hkeys]
      · intro p hp
        rcases List.mem_cons.mp hp with h | h
        · subst h
          exact Or.inr ⟨rfl, e, hc⟩
        · exact hout p h
      · intro q hq
        rcases List.mem_cons.mp hq with h | h
        · subst h
          exact ⟨List.mem_cons_self _ _, hc⟩
        · obtain ⟨h1, h2⟩ := herr q h
          exact ⟨List.mem_cons_of_mem _ h1, h2⟩

/-- The parsed row covers exactly the type map's keys, each cell being the
getter's value or `null` under a recorded error; every recorded error sits
beside a `null` cell. -/
theorem rowParser_spec (types : TypeMap) (row : Record) :
    (rowParser types row).1.map Prod.fst = dedupKeys (types.map Prod.fst) ∧
    (∀ p ∈ (rowParser types row).1,
      cellGetter types p.1 row = Except.ok p.2 ∨
        (p.2 = RawValue.vnull ∧ ∃ e, cellGetter types p.1 row = Except.error e)) ∧
    (∀ q ∈ (rowParser types row).2,
      (q.1, RawValue.vnull) ∈ (rowParser types row).1 ∧
        cellGetter types q.1 row = Except.error q.2) := by
  obtain ⟨nO, nE, heq, hkeys, hout, herr⟩ :=
    rowParser_fold types row (dedupKeys (types.map Prod.fst)) ([], [])
  have hrp : rowParser types row = (nO, nE) := by
    unfold rowParser
    rw [heq]
    simp
  rw [hrp]
  exact ⟨hkeys, hout, herr⟩

theorem parseRowsGo_fst (types : TypeMap) (data : List Record) :
    ∀ i, (parseRowsGo types i data).1 = data.map (fun r => (rowParser types r).1) := by
  induction data with
  | nil => intro i; rfl
  | cons r rest ih =>
    intro i
    simp only [parseRowsGo, List.map_cons]
    rw [ih]

theorem parseRowsGo_err_mem (types : TypeMap) (data : List Record) :
    ∀ i, ∀ e ∈ (parseRowsGo types i data).2,
      ∃ j, ∃ h : j < data.length,
        e.row = i + j ∧ e.error = (rowParser types (data.get ⟨j, h⟩)).2 ∧ e.error ≠ [] := by
  induction data with
  | nil =>
    intro i e he
    simp [parseRowsGo] at he
  | cons r rest ih =>
    intro i e he
    simp only [parseRowsGo] at he
    by_cases hp : (rowParser types r).2.isEmpty
    · rw [if_pos hp, List.nil_append] at he
      obtain ⟨j, hj, hrow, herr, hne⟩ := ih (i + 1) e he
      exact ⟨j + 1, by simpa using Nat.succ_lt_succ hj, by omega, by simpa using herr, hne⟩
    · rw [if_neg hp] at he
      rcases List.mem_append.mp he with h1 | h2
      · have h1' : e = ⟨i, (rowParser types r).2⟩ := List.mem_singleton.mp h1
        subst h1'
        exact ⟨0, by simp, by simp, by simp, by simpa [List.isEmpty_iff] using hp⟩
      · obtain ⟨j, hj, hrow, herr, hne⟩ := ih (i + 1) e h2
        exact ⟨j + 1, by simpa using Nat.succ_lt_succ hj, by omega, by simpa using herr, hne⟩

theorem parseRowsGo_err_complete (types : TypeMap) (data : List Record) :
    ∀ i j, ∀ h : j < data.length,
      (rowParser types (data.get ⟨j, h⟩)).2 ≠ [] →
      (i + j) ∈ (parseRowsGo types i data).2.map RowError.row := by
  induction data with
  | nil =>
    intro i j h
    simp at h
  | cons r rest ih =>
    intro i j h hne
    cases j with
    | zero =>
      simp only [parseRowsGo, List.map_append]
      apply List.mem_append_left
      have hp : ¬(rowParser types r).2.isEmpty := by
        simpa [List.isEmpty_iff] using hne
      simp [hp]
    | succ j' =>
      have hj' : j' < rest.length := by simpa using Nat.lt_of_succ_lt_succ h
      have hmem := ih (i + 1) j' hj' (by simpa using hne)
      simp only [parseRowsGo, List.map_append]
      apply List.mem_append_right
      have : i + 1 + j' = i + (j' + 1) := by omega
      rwa [this] at hmem

theorem parseRowsGo_err_sorted (types : TypeMap) (data : List Record) :
    ∀ i, ((parseRowsGo types i data).2.map RowError.row).Pairwise (· < ·) ∧
      ∀ e ∈ (parseRowsGo types i data).2, i ≤ e.row := by
  induction data with
  | nil =>
    intro i
    simp [parseRowsGo]
  | cons r rest ih =>
    intro i
    obtain ⟨hp, hlb⟩ := ih (i + 1)
    constructor
    · simp only [parseRowsGo, List.map_append]
      refine List.pairwise_append.mpr ⟨?_, hp, ?_⟩
      · by_cases h : (rowParser types r).2.isEmpty
        · rw [if_pos h]
          simp
        · rw [if_neg h]
          simp
      · intro a ha b hb
        by_cases h : (rowParser types r).2.isEmpty
        · rw [if_pos h] at ha
          simp at ha
        · rw [if_neg h] at ha
          have ha' : a = i := by simpa using ha
          subst ha'
          obtain ⟨e, he, rfl⟩ := List.mem_map.mp hb
          exact Nat.lt_of_succ_le (hlb e he)
    · intro e he
      simp only [parseRowsGo] at he
      by_cases h : (rowParser types r).2.isEmpty
      · rw [if_pos h, List.nil_append] at he
        exact Nat.le_of_succ_le (hlb e he)
      · rw [if_neg h] at he
        rcases List.mem_append.mp he with h1 | h2
        · have h1' : e = ⟨i, (rowParser types r).2⟩ := List.mem_singleton.mp h1
          subst h1'
          exact Nat.le_refl i
        · exact Nat.le_of_succ_le (hlb e h2)

/-! ### Claim C9 -/

/-- C9: for every input `data` that is not a sequence (not an array),
`inferTypes` returns an empty Type Map and raises no error. -/
theorem claim9_inferTypes_nonarray (strict : Bool) :
    inferTypes JSData.other strict = [] := rfl

/-! ### Claim C2 -/

/-- C2 fails as stated: at the concrete non-sequence input `other`,
`parseDataset` does not return a Parser Result — `data.map` is not a
function and the call throws a TypeError. -/
theorem claim2_counterexample :
    parseDataset JSData.other none =
      Except.error "TypeError: data.map is not a function" := rfl

/-- C2 (amended): for every array input — including rows with
type-mismatched values — `parseDataset` returns a Parser Result triple and
never raises; every conversion failure is represented as data: each
recorded row error is nonempty and each of its cells is `null` in the
corresponding parsed row.  (A non-sequence `data` argument instead throws a
TypeError, since it has no `map` method.) -/
theorem claim2_amended (rows : List Record) (types : Option TypeMap) :
    ∃ res, parseDataset (JSData.arr rows) types = Except.ok res ∧
      ∀ e ∈ res.errors, e.error ≠ [] ∧
        ∃ h : e.row < res.dataset.length,
          ∀ q ∈ e.error, jsGet (res.dataset.get ⟨e.row, h⟩) q.1 = RawValue.vnull := by
  have hds : (parseRows rows (resolveTypes (JSData.arr rows) types)).1 =
      rows.map (fun r => (rowParser (resolveTypes (JSData.arr rows) types) r).1) :=
    parseRowsGo_fst _ rows 0
  have hlen : (parseRows rows (resolveTypes (JSData.arr rows) types)).1.length = rows.length := by
    rw [hds, List.length_map]
  refine ⟨⟨(parseRows rows (resolveTypes (JSData.arr rows) types)).1,
    resolveTypes (JSData.arr rows) types,
    (parseRows rows (resolveTypes (JSData.arr rows) types)).2⟩, rfl, ?_⟩
  intro e he
  obtain ⟨j, hj, hrow, herr, hne⟩ := parseRowsGo_err_mem _ rows 0 e he
  have hrow' : e.row = j := by omega
  refine ⟨hne, ?_⟩
  show ∃ h : e.row < (parseRows rows (resolveTypes (JSData.arr rows) types)).1.length,
    ∀ q ∈ e.error,
      jsGet ((parseRows rows (resolveTypes (JSData.arr rows) types)).1.get ⟨e.row, h⟩) q.1 =
        RawValue.vnull
  rw [hrow']
  refine ⟨by simpa [hlen] using hj, ?_⟩
  intro q hq
  have hget : (parseRows rows (resolveTypes (JSData.arr rows) types)).1.get
      ⟨j, by simpa [hlen] using hj⟩ =
      (rowParser (resolveTypes (JSData.arr rows) types) (rows.get ⟨j, hj⟩)).1 := by
    simp [hds]
  rw [hget]
  obtain ⟨hkeys, _, herrs⟩ :=
    rowParser_spec (resolveTypes (JSData.arr rows) types) (rows.get ⟨j, hj⟩)
  have hqm : q ∈ (rowParser (resolveTypes (JSData.arr rows) types) (rows.get ⟨j, hj⟩)).2 := by
    rw [← herr]; exact hq
  have hnodup : ((rowParser (resolveTypes (JSData.arr rows) types) (rows.get ⟨j, hj⟩)).1.map
      Prod.fst).Nodup := by
    rw [hkeys]; exact dedupKeys_nodup _
  exact jsGet_of_mem hnodup (herrs q hqm).1

/-! ### Claim C6 -/

/-- C6: for every sequence input, the dataset returned by `parseDataset`
has the same length as the input, and the parsed row at index `i` is the
conversion (by the row parser built from the resolved type map) of the raw
record at index `i`. -/
theorem claim6_length_order (rows : List Record) (types : Option TypeMap) :
    ∃ res, parseDataset (JSData.arr rows) types = Except.ok res ∧
      res.dataset.length = rows.length ∧
      res.dataset = rows.map (fun r => (rowParser (resolveTypes (JSData.arr rows) types) r).1) := by
  refine ⟨_, rfl, ?_, ?_⟩
  · show (parseRows rows (resolveTypes (JSData.arr rows) types)).1.length = rows.length
    rw [parseRows, parseRowsGo_fst, List.length_map]
  · show (parseRows rows (resolveTypes (JSData.arr rows) types)).1 = _
    rw [parseRows, parseRowsGo_fst]

/-! ### Claim C7 -/

/-- C7: every parsed row produced by `parseDataset` has exactly the key set
of the resolved type map — no more and no fewer keys — regardless of which
keys the raw record had, and each value is either the successfully coerced
typed value (the cell getter's result) or `null` under a conversion
error. -/
theorem claim7_column_coverage (rows : List Record) (types : Option TypeMap)
    (res : ParserResult) (hres : parseDataset (JSData.arr rows) types = Except.ok res)
    (prow : Record) (hmem : prow ∈ res.dataset) :
    prow.map Prod.fst = dedupKeys ((resolveTypes (JSData.arr rows) types).map Prod.fst) ∧
    ∃ orig ∈ rows, ∀ p ∈ prow,
      cellGetter (resolveTypes (JSData.arr rows) types) p.1 orig = Except.ok p.2 ∨
        (p.2 = RawValue.vnull ∧
          ∃ e, cellGetter (resolveTypes (JSData.arr rows) types) p.1 orig = Except.error e) := by
  have hres' : (⟨(parseRows rows (resolveTypes (JSData.arr rows) types)).1,
      resolveTypes (JSData.arr rows) types,
      (parseRows rows (resolveTypes (JSData.arr rows) types)).2⟩ : ParserResult) = res :=
    Except.ok.inj hres
  subst hres'
  have hds : (parseRows rows (resolveTypes (JSData.arr rows) types)).1 =
      rows.map (fun r => (rowParser (resolveTypes (JSData.arr rows) types) r).1) :=
    parseRowsGo_fst _ rows 0
  have hmem' : prow ∈ (parseRows rows (resolveTypes (JSData.arr rows) types)).1 := hmem
  rw [hds] at hmem'
  obtain ⟨orig, horig, rfl⟩ := List.mem_map.mp hmem'
  obtain ⟨hkeys, hvals, _⟩ := rowParser_spec (resolveTypes (JSData.arr rows) types) orig
  exact ⟨hkeys, orig, horig, hvals⟩

/-- Witness for C7 at the spec's example 4: one record `{x: 1}` parsed
against the map `{x: Number, y: String}`. -/
theorem claim7_witness :
    ([(("x" : String), RawValue.vnum (JNum.num 1)), ("y", RawValue.vnull)] : Record).map Prod.fst =
      dedupKeys ((resolveTypes (JSData.arr [[("x", RawValue.vnum (JNum.num 1))]])
        (some [("x", JSType.ctor PrimTag.pnumber), ("y", JSType.ctor PrimTag.pstring)])).map
          Prod.fst) ∧
    ∃ orig ∈ [[(("x" : String), RawValue.vnum (JNum.num 1))]],
      ∀ p ∈ ([(("x" : String), RawValue.vnum (JNum.num 1)), ("y", RawValue.vnull)] : Record),
        cellGetter (resolveTypes (JSData.arr [[("x", RawValue.vnum (JNum.num 1))]])
          (some [("x", JSType.ctor PrimTag.pnumber), ("y", JSType.ctor PrimTag.pstring)]))
          p.1 orig = Except.ok p.2 ∨
          (p.2 = RawValue.vnull ∧
            ∃ e, cellGetter (resolveTypes (JSData.arr [[("x", RawValue.vnum (JNum.num 1))]])
              (some [("x", JSType.ctor PrimTag.pnumber), ("y", JSType.ctor PrimTag.pstring)]))
              p.1 orig = Except.error e) :=
  claim7_column_coverage [[("x", RawValue.vnum (JNum.num 1))]]
    (some [("x", JSType.ctor PrimTag.pnumber), ("y", JSType.ctor PrimTag.pstring)])
    _ rfl _ (List.mem_singleton.mpr rfl)

/-! ### Claim C8 -/

/-- C8: the errors component is an ordered sequence with strictly increasing
row indices, containing exactly one entry per row that had at least one
failing cell: every entry carries a valid row index, that row's nonempty
per-column error mapping, and every failing row index occurs in the list. -/
theorem claim8_error_list (rows : List Record) (types : Option TypeMap)
    (res : ParserResult) (hres : parseDataset (JSData.arr rows) types = Except.ok res) :
    (res.errors.map RowError.row).Pairwise (· < ·) ∧
    (∀ e ∈ res.errors, ∃ h : e.row < rows.length,
      e.error = (rowParser (resolveTypes (JSData.arr rows) types) (rows.get ⟨e.row, h⟩)).2 ∧
        e.error ≠ []) ∧
    (∀ i, ∀ h : i < rows.length,
      (rowParser (resolveTypes (JSData.arr rows) types) (rows.get ⟨i, h⟩)).2 ≠ [] →
        i ∈ res.errors.map RowError.row) := by
  have hres' : (⟨(parseRows rows (resolveTypes (JSData.arr rows) types)).1,
      resolveTypes (JSData.arr rows) types,
      (parseRows rows (resolveTypes (JSData.arr rows) types)).2⟩ : ParserResult) = res :=
    Except.ok.inj hres
  subst hres'
  refine ⟨(parseRowsGo_err_sorted _ rows 0).1, ?_, ?_⟩
  · intro e he
    obtain ⟨j, hj, hrow, herr, hne⟩ := parseRowsGo_err_mem _ rows 0 e he
    have hrow' : e.row = j := by omega
    subst hrow'
    exact ⟨hj, herr, hne⟩
  · intro i h hne
    simpa using parseRowsGo_err_complete _ rows 0 i h hne

/-- Witness for C8 at the spec's example 3: `{n: "5"}` parses, `{n: "bad"}`
fails, yielding exactly one error entry at row 1. -/
theorem claim8_witness :
    (((parseDataset (JSData.arr [[("n", RawValue.vstr "5")], [("n", RawValue.vstr "bad")]])
        (some [("n", JSType.ctor PrimTag.pnumber)])).toOption.getD ⟨[], [], []⟩).errors.map
          RowError.row).Pairwise (· < ·) ∧
    (∀ e ∈ ((parseDataset (JSData.arr [[("n", RawValue.vstr "5")], [("n", RawValue.vstr "bad")]])
        (some [("n", JSType.ctor PrimTag.pnumber)])).toOption.getD ⟨[], [], []⟩).errors,
      ∃ h : e.row < ([[("n", RawValue.vstr "5")], [("n", RawValue.vstr "bad")]] :
          List Record).length,
        e.error = (rowParser (resolveTypes
            (JSData.arr [[("n", RawValue.vstr "5")], [("n", RawValue.vstr "bad")]])
            (some [("n", JSType.ctor PrimTag.pnumber)]))
          (([[("n", RawValue.vstr "5")], [("n", RawValue.vstr "bad")]] :
            List Record).get ⟨e.row, h⟩)).2 ∧ e.error ≠ []) ∧
    (∀ i, ∀ h : i < ([[("n", RawValue.vstr "5")], [("n", RawValue.vstr "bad")]] :
        List Record).length,
      (rowParser (resolveTypes
          (JSData.arr [[("n", RawValue.vstr "5")], [("n", RawValue.vstr "bad")]])
          (some [("n", JSType.ctor PrimTag.pnumber)]))
        (([[("n", RawValue.vstr "5")], [("n", RawValue.vstr "bad")]] :
          List Record).get ⟨i, h⟩)).2 ≠ [] →
        i ∈ ((parseDataset (JSData.arr [[("n", RawValue.vstr "5")], [("n", RawValue.vstr "bad")]])
          (some [("n", JSType.ctor PrimTag.pnumber)])).toOption.getD ⟨[], [], []⟩).errors.map RowError.row) :=
  claim8_error_list [[("n", RawValue.vstr "5")], [("n", RawValue.vstr "bad")]]
    (some [("n", JSType.ctor PrimTag.pnumber)]) _ rfl

/-! ### Claim C1 -/

/-- C1 fails as stated: at the concrete input of an empty record parsed
against the type map `{d: Date}`, the missing cell is `null` but a Field
Error IS recorded for it (`checkType` rejects `null` for a Date column, as
`null instanceof Date` is false), contradicting "no Field Error is recorded
for that cell regardless of the column's Type Descriptor". -/
theorem claim1_counterexample :
    parseDataset (JSData.arr [[]]) (some [("d", JSType.ctor PrimTag.pdate)]) =
      Except.ok ⟨[[("d", RawValue.vnull)]], [("d", JSType.ctor PrimTag.pdate)],
        [⟨0, [("d", "invalid type date for value null")]⟩]⟩ := rfl

/-- C1 (amended): a missing column (or a raw `null`/`undefined` value at its
path) always yields a `null` cell value, and for a built-in descriptor that
is not Date-typed no Field Error is recorded; but for a Date-typed
descriptor a Field Error IS recorded for the absent cell — with the message
for `null` when the descriptor has no formatter (bare `Date` constructor or
`"date"` tag), and for an Invalid Date when it carries a `dateFormat`. -/
theorem claim1_amended (types : TypeMap) (k : String) (row : Record)
    (h : jsGet row k = RawValue.vnull) :
    (getFormatter (lookupType types k) = none →
      (getType (lookupType types k) ≠ some PrimTag.pdate →
        cellGetter types k row = Except.ok RawValue.vnull) ∧
      (getType (lookupType types k) = some PrimTag.pdate →
        cellGetter types k row = Except.error "invalid type date for value null")) ∧
    (∀ fmt, lookupType types k = JSType.jobj fmt →
      cellGetter types k row = Except.error "invalid type date for value Invalid Date") := by
  constructor
  · intro hf
    have hck := checkType_vnull (getType (lookupType types k))
    constructor
    · intro hnd
      simp only [cellGetter]
      rw [hf, h]
      simp only [basicGetter]
      rw [hck, if_neg hnd]
    · intro hd
      simp only [cellGetter]
      rw [hf, h]
      simp only [basicGetter]
      rw [hck, if_pos hd]
  · intro fmt hfmt
    simp only [cellGetter]
    rw [hfmt, h]
    rfl

/-- Witness for the amended C1: a missing Number cell is `null` with no
error, while a missing bare-Date cell and a missing dateFormat cell both
carry a recorded Field Error. -/
theorem claim1_witness :
    jsGet ([] : Record) "a" = RawValue.vnull ∧
    cellGetter [("a", JSType.ctor PrimTag.pnumber)] "a" [] = Except.ok RawValue.vnull ∧
    cellGetter [("d", JSType.ctor PrimTag.pdate)] "d" [] =
      Except.error "invalid type date for value null" ∧
    cellGetter [("f", JSType.jobj "YYYY-MM-DD")] "f" [] =
      Except.error "invalid type date for value Invalid Date" := by
  refine ⟨rfl, ?_, ?_, ?_⟩
  · exact ((claim1_amended [("a", JSType.ctor PrimTag.pnumber)] "a" [] rfl).1 rfl).1 (by decide)
  · exact ((claim1_amended [("d", JSType.ctor PrimTag.pdate)] "d" [] rfl).1 rfl).2 rfl
  · exact (claim1_amended [("f", JSType.jobj "YYYY-MM-DD")] "f" [] rfl).2 "YYYY-MM-DD" rfl

/-! ### Claim C10 -/

/-- C10: for a column whose descriptor is the Boolean primitive (the `Boolean`
constructor or the `"boolean"` tag — no custom decode, no dateFormat), every
raw cell value that is not `null`/`undefined` is coerced by JavaScript
truthiness and no Field Error is recorded; in particular every non-empty
string — including `"false"` — parses to `true`. -/
theorem claim10_boolean_truthiness (dt : JSType)
    (hdt : dt = JSType.ctor PrimTag.pboolean ∨ dt = JSType.jstr "boolean")
    (types : TypeMap) (k : String) (row : Record)
    (hl : lookupType types k = dt) (h : jsGet row k ≠ RawValue.vnull) :
    cellGetter types k row = Except.ok (RawValue.vbool (jsToBool (jsGet row k))) ∧
    ∀ s : String, s ≠ "" → jsToBool (RawValue.vstr s) = true := by
  constructor
  · have hf : getFormatter dt = none := by rcases hdt with rfl | rfl <;> rfl
    have ht : getType dt = some PrimTag.pboolean := by
      rcases hdt with rfl | rfl
      · rfl
      · show some (tagOfString "boolean") = some PrimTag.pboolean
        decide
    simp only [cellGetter]
    rw [hl, hf, ht]
    cases hv : jsGet row k with
    | vnull => exact absurd hv h
    | vnum n => rfl
    | vbool b => rfl
    | vstr s => rfl
    | vdate d => rfl
  · intro s hs
    simp only [jsToBool, bne_iff_ne, ne_eq]
    exact hs

/-- Witness for C10: the string `"false"` in a Boolean column parses to
`true` with no error. -/
theorem claim10_witness :
    cellGetter [("b", JSType.ctor PrimTag.pboolean)] "b" [("b", RawValue.vstr "false")] =
      Except.ok (RawValue.vbool true) ∧ jsToBool (RawValue.vstr "false") = true := by
  have h := claim10_boolean_truthiness (JSType.ctor PrimTag.pboolean) (Or.inl rfl)
    [("b", JSType.ctor PrimTag.pboolean)] "b" [("b", RawValue.vstr "false")] rfl (by decide)
  exact ⟨h.1, h.2 "false" (by decide)⟩

/-! ### Infrastructure for the majority-vote claims -/

theorem firstIdx_append_left {l₁ : List String} (l₂ : List String) {κ : String}
    (h : κ ∈ l₁) : firstIdx (l₁ ++ l₂) κ = firstIdx l₁ κ := by
  induction l₁ with
  | nil => simp at h
  | cons a rest ih =>
    by_cases ha : a = κ
    · simp [firstIdx, ha]
    · have h' : κ ∈ rest := by
        rcases List.mem_cons.mp h with h1 | h1
        · exact absurd h1.symm ha
        · exact h1
      simp [firstIdx, ha, ih h']

theorem firstIdx_append_right {l₁ : List String} (l₂ : List String) {κ : String}
    (h : κ ∉ l₁) : firstIdx (l₁ ++ l₂) κ = l₁.length + firstIdx l₂ κ := by
  induction l₁ with
  | nil => simp [firstIdx]
  | cons a rest ih =>
    have ha : a ≠ κ := fun he => h (he ▸ List.mem_cons_self a rest)
    have h' : κ ∉ rest := fun hm => h (List.mem_cons_of_mem _ hm)
    show (if a = κ then 0 else firstIdx (rest ++ l₂) κ + 1) = (a :: rest).length + firstIdx l₂ κ
    rw [if_neg ha, ih h', List.length_cons]
    omega

theorem firstIdx_lt_length {l : List String} {κ : String} (h : κ ∈ l) :
    firstIdx l κ < l.length := by
  induction l with
  | nil => simp at h
  | cons a rest ih =>
    by_cases ha : a = κ
    · simp [firstIdx, ha]
    · have h' : κ ∈ rest := by
        rcases List.mem_cons.mp h with h1 | h1
        · exact absurd h1.symm ha
        · exact h1
      simp only [firstIdx, if_neg ha, List.length_cons]
      exact Nat.succ_lt_succ (ih h')

theorem count_add_count_le (l : List String) (a b : String) (h : a ≠ b) :
    l.count a + l.count b ≤ l.length := by
  induction l with
  | nil => simp
  | cons c rest ih =>
    rw [List.count_cons, List.count_cons, List.length_cons]
    split_ifs with h1 h2 h2
    · exact absurd ((beq_iff_eq.mp h1).symm.trans (beq_iff_eq.mp h2)) h
    · omega
    · omega
    · omega

theorem find?_append_some {α : Type} {p : α → Bool} {l₁ : List α} {x : α}
    (h : l₁.find? p = some x) (l₂ : List α) : (l₁ ++ l₂).find? p = some x := by
  induction l₁ with
  | nil => simp at h
  | cons a rest ih =>
    by_cases hp : p a = true
    · rw [List.find?_cons_of_pos _ hp] at h
      rw [List.cons_append, List.find?_cons_of_pos _ hp]
      exact h
    · rw [List.find?_cons_of_neg _ hp] at h
      rw [List.cons_append, List.find?_cons_of_neg _ hp]
      exact ih h

theorem find?_append_none {α : Type} {p : α → Bool} {l₁ : List α}
    (h : l₁.find? p = none) (l₂ : List α) : (l₁ ++ l₂).find? p = l₂.find? p := by
  induction l₁ with
  | nil => simp
  | cons a rest ih =>
    by_cases hp : p a = true
    · rw [List.find?_cons_of_pos _ hp] at h
      exact absurd h (by simp)
    · rw [List.find?_cons_of_neg _ hp] at h
      rw [List.cons_append, List.find?_cons_of_neg _ hp]
      exact ih h

/-- Invariant relating a processed candidate prefix `p` to the `counts`
accumulator `acc`: keys are the distinct property keys of `p` in first-seen
order, each entry's count is its key's occurrence count in `p`, and each
entry's stored value is the first candidate of `p` bearing its key. -/
structure TallyInv (p : List JSType) (acc : List TallyEntry) : Prop where
  nodup : (acc.map Prod.fst).Nodup
  memIff : ∀ κ, κ ∈ acc.map Prod.fst ↔ κ ∈ keyList p
  countEq : ∀ e ∈ acc, e.2.1 = (keyList p).count e.1
  firstVal : ∀ e ∈ acc, p.find? (fun c => jsPropKey c == e.1) = some e.2.2
  ordered : (acc.map Prod.fst).Pairwise
    (fun a b => firstIdx (keyList p) a < firstIdx (keyList p) b)

theorem tallyInv_bump {p : List JSType} {acc : List TallyEntry} (inv : TallyInv p acc)
    (c : JSType) : TallyInv (p ++ [c]) (bump acc c) := by
  have hkl : keyList (p ++ [c]) = keyList p ++ [jsPropKey c] := by simp [keyList]
  by_cases hmem : acc.any (fun e => e.1 == jsPropKey c)
  · have hk : jsPropKey c ∈ acc.map Prod.fst := by
      obtain ⟨e, he, hbe⟩ := List.any_eq_true.mp hmem
      have he1 : e.1 = jsPropKey c := by simpa using hbe
      exact he1 ▸ List.mem_map_of_mem Prod.fst he
    have hkp : jsPropKey c ∈ keyList p := (inv.memIff _).mp hk
    have hbump : bump acc c =
        acc.map (fun e => if e.1 == jsPropKey c then (e.1, e.2.1 + 1, e.2.2) else e) := by
      simp only [bump, if_pos hmem]
    have hfst : (acc.map (fun e => if e.1 == jsPropKey c then (e.1, e.2.1 + 1, e.2.2)
        else e)).map Prod.fst = acc.map Prod.fst := by
      rw [List.map_map]
      apply List.map_congr_left
      intro e he
      simp only [Function.comp_apply]
      split <;> rfl
    refine ⟨?_, ?_, ?_, ?_, ?_⟩
    · rw [hbump, hfst]
      exact inv.nodup
    · intro κ
      rw [hbump, hfst, hkl]
      constructor
      · intro h
        exact List.mem_append_left _ ((inv.memIff κ).mp h)
      · intro h
        rcases List.mem_append.mp h with h | h
        · exact (inv.memIff κ).mpr h
        · have hκ : κ = jsPropKey c := by simpa using h
          exact hκ ▸ hk
    · intro f hf
      rw [hbump] at hf
      obtain ⟨e, he, hfe⟩ := List.mem_map.mp hf
      rw [hkl]
      by_cases hb : e.1 = jsPropKey c
      · have hfe' : f = (e.1, e.2.1 + 1, e.2.2) := by
          rw [← hfe, if_pos (beq_iff_eq.mpr hb)]
        subst hfe'
        show e.2.1 + 1 = (keyList p ++ [jsPropKey c]).count e.1
        rw [List.count_append, ← inv.countEq e he, List.count_singleton,
          if_pos (beq_iff_eq.mpr hb.symm)]
      · have hfe' : f = e := by
          rw [← hfe, if_neg (by simp only [beq_iff_eq]; exact hb)]
        rw [hfe', List.count_append, ← inv.countEq e he, List.count_singleton,
          if_neg (by simp only [beq_iff_eq]; exact fun hcc => hb hcc.symm)]
        omega
    · intro f hf
      rw [hbump] at hf
      obtain ⟨e, he, hfe⟩ := List.mem_map.mp hf
      have hfind := inv.firstVal e he
      by_cases hb : e.1 = jsPropKey c
      · have hfe' : f = (e.1, e.2.1 + 1, e.2.2) := by
          rw [← hfe, if_pos (beq_iff_eq.mpr hb)]
        subst hfe'
        exact find?_append_some hfind [c]
      · have hfe' : f = e := by
          rw [← hfe, if_neg (by simp only [beq_iff_eq]; exact hb)]
        rw [hfe']
        exact find?_append_some hfind [c]
    · rw [hbump, hfst, hkl]
      refine inv.ordered.imp_of_mem ?_
      intro a b ha hb hab
      have hap : a ∈ keyList p := (inv.memIff a).mp ha
      have hbp : b ∈ keyList p := (inv.memIff b).mp hb
      rw [firstIdx_append_left _ hap, firstIdx_append_left _ hbp]
      exact hab
  · have hk : jsPropKey c ∉ acc.map Prod.fst := by
      intro h
      obtain ⟨e, he, he1⟩ := List.mem_map.mp h
      exact hmem (List.any_eq_true.mpr ⟨e, he, by simp [he1]⟩)
    have hkp : jsPropKey c ∉ keyList p := fun h => hk ((inv.memIff _).mpr h)
    have hbump : bump acc c = acc ++ [(jsPropKey c, 1, c)] := by
      simp only [bump, if_neg hmem]
    have hfst : (acc ++ [(jsPropKey c, 1, c)]).map Prod.fst =
        acc.map Prod.fst ++ [jsPropKey c] := by simp
    refine ⟨?_, ?_, ?_, ?_, ?_⟩
    · rw [hbump, hfst]
      rw [List.nodup_append]
      exact ⟨inv.nodup, List.nodup_singleton _, by
        intro a ha hb
        have : a = jsPropKey c := by simpa using hb
        exact hk (this ▸ ha)⟩
    · intro κ
      rw [hbump, hfst, hkl]
      constructor
      · intro h
        rcases List.mem_append.mp h with h | h
        · exact List.mem_append_left _ ((inv.memIff κ).mp h)
        · exact List.mem_append_right _ h
      · intro h
        rcases List.mem_append.mp h with h | h
        · exact List.mem_append_left _ ((inv.memIff κ).mpr h)
        · exact List.mem_append_right _ h
    · intro f hf
      rw [hbump] at hf
      rcases List.mem_append.mp hf with hf | hf
      · have hc1 := inv.countEq f hf
        have hf1 : f.1 ∈ acc.map Prod.fst := List.mem_map_of_mem Prod.fst hf
        have hfne : f.1 ≠ jsPropKey c := fun h => hk (h ▸ hf1)
        rw [hkl, List.count_append, hc1]
        have h0 : [jsPropKey c].count f.1 = 0 := by
          rw [List.count_singleton,
            if_neg (by simp only [beq_iff_eq]; exact fun hcc => hfne hcc.symm)]
        omega
      · have hf1 : f = (jsPropKey c, 1, c) := by simpa using hf
        subst hf1
        rw [hkl, List.count_append]
        have h0 : (keyList p).count (jsPropKey c) = 0 := by
          rw [List.count_eq_zero]
          exact hkp
        simp [h0, List.count_singleton]
    · intro f hf
      rw [hbump] at hf
      rcases List.mem_append.mp hf with hf | hf
      · exact find?_append_some (inv.firstVal f hf) [c]
      · have hf1 : f = (jsPropKey c, 1, c) := by simpa using hf
        subst hf1
        have hnone : p.find? (fun c' => jsPropKey c' == jsPropKey c) = none := by
          rw [List.find?_eq_none]
          intro x hx hbe
          have : jsPropKey x = jsPropKey c := by simpa using hbe
          exact hkp (this ▸ List.mem_map_of_mem jsPropKey hx)
        rw [find?_append_none hnone [c]]
        simp [List.find?]
    · rw [hbump, hfst, hkl]
      rw [List.pairwise_append]
      refine ⟨?_, List.pairwise_singleton _ _, ?_⟩
      · refine inv.ordered.imp_of_mem ?_
        intro a b ha hb hab
        have hap : a ∈ keyList p := (inv.memIff a).mp ha
        have hbp : b ∈ keyList p := (inv.memIff b).mp hb
        rw [firstIdx_append_left _ hap, firstIdx_append_left _ hbp]
        exact hab
      · intro a ha b hb
        have hbc : b = jsPropKey c := by simpa using hb
        subst hbc
        have hap : a ∈ keyList p := (inv.memIff a).mp ha
        rw [firstIdx_append_left _ hap, firstIdx_append_right _ hkp]
        have h1 : firstIdx (keyList p) a < (keyList p).length := firstIdx_lt_length hap
        have h2 : firstIdx [jsPropKey c] (jsPropKey c) = 0 := by simp [firstIdx]
        omega

theorem tallyInv_foldl (rest : List JSType) :
    ∀ (p : List JSType) (acc : List TallyEntry), TallyInv p acc →
      TallyInv (p ++ rest) (rest.foldl bump acc) := by
  induction rest with
  | nil =>
    intro p acc inv
    rw [List.append_nil]
    exact inv
  | cons c rest ih =>
    intro p acc inv
    have h1 := ih (p ++ [c]) (bump acc c) (tallyInv_bump inv c)
    rw [show p ++ c :: rest = (p ++ [c]) ++ rest by simp]
    exact h1

theorem tallyInv_tally (cands : List JSType) : TallyInv cands (tally cands) := by
  have h0 : TallyInv [] ([] : List TallyEntry) := by
    refine ⟨by simp, by simp [keyList], by simp, by simp, by simp⟩
  have h1 := tallyInv_foldl cands [] [] h0
  rw [List.nil_append] at h1
  exact h1

/-- lodash `maxBy` over a nonempty tail with running best `b`: the result is
the first element (in list order, here strictly ordered by `f`) achieving
the maximal count. -/
theorem maxEntry_go (f : TallyEntry → Nat) :
    ∀ (l : List TallyEntry) (b : TallyEntry),
      (∀ e ∈ l, f b < f e) → l.Pairwise (fun a a' => f a < f a') →
      ∃ r, l.foldl maxStep (some b) = some r ∧ (r = b ∨ r ∈ l) ∧ b.2.1 ≤ r.2.1 ∧
        (∀ e ∈ l, e.2.1 ≤ r.2.1) ∧ (b.2.1 = r.2.1 → r = b) ∧
        (∀ e ∈ l, e.2.1 = r.2.1 → r = e ∨ f r < f e) := by
  intro l
  induction l with
  | nil =>
    intro b _ _
    exact ⟨b, rfl, Or.inl rfl, Nat.le_refl _, by simp, fun _ => rfl, by simp⟩
  | cons e₁ rest ih =>
    intro b hlt hpair
    have hp := List.pairwise_cons.mp hpair
    simp only [List.foldl_cons]
    by_cases hbe : b.2.1 < e₁.2.1
    · have hstep : maxStep (some b) e₁ = some e₁ := by simp [maxStep, hbe]
      rw [hstep]
      obtain ⟨r, hr, hmem, hble, hmax, htieb, htie⟩ := ih e₁ hp.1 hp.2
      refine ⟨r, hr, ?_, ?_, ?_, ?_, ?_⟩
      · rcases hmem with rfl | h
        · exact Or.inr (List.mem_cons_self _ _)
        · exact Or.inr (List.mem_cons_of_mem _ h)
      · exact Nat.le_of_lt (Nat.lt_of_lt_of_le hbe hble)
      · intro e he
        rcases List.mem_cons.mp he with rfl | h
        · exact hble
        · exact hmax e h
      · intro hbr
        exact absurd hbr (Nat.ne_of_lt (Nat.lt_of_lt_of_le hbe hble))
      · intro e he htiee
        rcases List.mem_cons.mp he with rfl | h
        · exact Or.inl (htieb htiee)
        · exact htie e h htiee
    · have hstep : maxStep (some b) e₁ = some b := by simp [maxStep, hbe]
      rw [hstep]
      have hlt' : ∀ e ∈ rest, f b < f e := fun e he => hlt e (List.mem_cons_of_mem _ he)
      obtain ⟨r, hr, hmem, hble, hmax, htieb, htie⟩ := ih b hlt' hp.2
      have he₁b : e₁.2.1 ≤ b.2.1 := Nat.le_of_not_lt hbe
      refine ⟨r, hr, ?_, hble, ?_, htieb, ?_⟩
      · rcases hmem with rfl | h
        · exact Or.inl rfl
        · exact Or.inr (List.mem_cons_of_mem _ h)
      · intro e he
        rcases List.mem_cons.mp he with rfl | h
        · exact Nat.le_trans he₁b hble
        · exact hmax e h
      · intro e he htiee
        rcases List.mem_cons.mp he with rfl | h
        · have hbr : b.2.1 = r.2.1 := by omega
          have hrb : r = b := htieb hbr
          right
          rw [hrb]
          exact hlt e (List.mem_cons_self _ _)
        · exact htie e h htiee

/-- Full characterisation of the per-column vote: on a nonempty candidate
list the winner exists, its property key occurs in the candidates, its
occurrence count is maximal, and among keys of maximal count its first
occurrence (in scan order) is earliest.  The winner value itself is the
first candidate carrying the winning key. -/
theorem voteWinner_spec (cands : List JSType) (hne : cands ≠ []) :
    ∃ v, voteWinner cands = some v ∧ jsPropKey v ∈ keyList cands ∧
      cands.find? (fun c => jsPropKey c == jsPropKey v) = some v ∧
      (∀ κ, (keyList cands).count κ ≤ (keyList cands).count (jsPropKey v)) ∧
      (∀ κ, (keyList cands).count κ = (keyList cands).count (jsPropKey v) →
        firstIdx (keyList cands) (jsPropKey v) ≤ firstIdx (keyList cands) κ) := by
  have inv := tallyInv_tally cands
  obtain ⟨c₀, cs, rfl⟩ := List.exists_cons_of_ne_nil hne
  have hkey0 : jsPropKey c₀ ∈ keyList (c₀ :: cs) := by simp [keyList]
  have htne : (tally (c₀ :: cs)).map Prod.fst ≠ [] := by
    intro h
    have := (inv.memIff (jsPropKey c₀)).mpr hkey0
    rw [h] at this
    simp at this
  obtain ⟨e₀, tl, htal⟩ :
      ∃ e₀ tl, tally (c₀ :: cs) = e₀ :: tl := by
    cases h : tally (c₀ :: cs) with
    | nil => rw [h] at htne; simp at htne
    | cons e₀ tl => exact ⟨e₀, tl, rfl⟩
  have hpair : (e₀ :: tl).Pairwise
      (fun a b => firstIdx (keyList (c₀ :: cs)) a.1 < firstIdx (keyList (c₀ :: cs)) b.1) := by
    have h := List.pairwise_map.mp inv.ordered
    rwa [htal] at h
  have hpc := List.pairwise_cons.mp hpair
  obtain ⟨r, hr, hmem, hble, hmax, htieb, htie⟩ :=
    maxEntry_go (fun e => firstIdx (keyList (c₀ :: cs)) e.1) tl e₀ hpc.1 hpc.2
  have hrt : r ∈ tally (c₀ :: cs) := by
    rw [htal]
    rcases hmem with rfl | h
    · exact List.mem_cons_self _ _
    · exact List.mem_cons_of_mem _ h
  have hrmax : ∀ e ∈ tally (c₀ :: cs), e.2.1 ≤ r.2.1 := by
    intro e he
    rw [htal] at he
    rcases List.mem_cons.mp he with rfl | h
    · exact hble
    · exact hmax e h
  have hrtie : ∀ e ∈ tally (c₀ :: cs), e.2.1 = r.2.1 →
      firstIdx (keyList (c₀ :: cs)) r.1 ≤ firstIdx (keyList (c₀ :: cs)) e.1 := by
    intro e he htiee
    rw [htal] at he
    rcases List.mem_cons.mp he with rfl | h
    · have hre := htieb htiee
      rw [hre]
    · rcases htie e h htiee with rfl | hlt
      · exact Nat.le_refl _
      · exact Nat.le_of_lt hlt
  have hfind := inv.firstVal r hrt
  have hvk : jsPropKey r.2.2 = r.1 := by
    have := List.find?_some hfind
    simpa using this
  have hwin : voteWinner (c₀ :: cs) = some r.2.2 := by
    unfold voteWinner maxEntry
    rw [htal]
    simp only [List.foldl_cons, show maxStep none e₀ = some e₀ from rfl]
    rw [hr]
    rfl
  refine ⟨r.2.2, hwin, ?_, ?_, ?_, ?_⟩
  · rw [hvk]
    exact (inv.memIff r.1).mp (List.mem_map_of_mem Prod.fst hrt)
  · rw [hvk]
    exact hfind
  · intro κ
    rw [hvk, ← inv.countEq r hrt]
    by_cases hκ : κ ∈ keyList (c₀ :: cs)
    · obtain ⟨e, he, he1⟩ : ∃ e ∈ tally (c₀ :: cs), e.1 = κ := by
        have := (inv.memIff κ).mpr hκ
        obtain ⟨e, he, he1⟩ := List.mem_map.mp this
        exact ⟨e, he, he1⟩
      rw [← he1, ← inv.countEq e he]
      exact hrmax e he
    · rw [List.count_eq_zero.mpr hκ]
      exact Nat.zero_le _
  · intro κ hκcount
    rw [hvk]
    have hrpos : 0 < (keyList (c₀ :: cs)).count r.1 := by
      rw [List.count_pos_iff]
      exact (inv.memIff r.1).mp (List.mem_map_of_mem Prod.fst hrt)
    have hκmem : κ ∈ keyList (c₀ :: cs) := by
      rw [← List.count_pos_iff]
      have h1 : (keyList (c₀ :: cs)).count κ = (keyList (c₀ :: cs)).count r.1 := by
        rw [hκcount, hvk]
      omega
    obtain ⟨e, he, he1⟩ : ∃ e ∈ tally (c₀ :: cs), e.1 = κ := by
      have := (inv.memIff κ).mpr hκmem
      obtain ⟨e, he, he1⟩ := List.mem_map.mp this
      exact ⟨e, he, he1⟩
    have hecount : e.2.1 = r.2.1 := by
      rw [inv.countEq e he, he1, hκcount, hvk, ← inv.countEq r hrt]
    rw [← he1]
    exact hrtie e he hecount

/-- The entry the second loop of `inferTypes` writes for a collected column
is exactly the vote winner of that column's candidate list. -/
theorem lookupVal_inferTypes {rows : List Record} {strict : Bool} {k : String}
    {cands : List JSType} (hc : lookupVal (collectCandidates rows strict) k = some cands)
    {v : JSType} (hv : voteWinner cands = some v) :
    lookupVal (inferTypes (JSData.arr rows) strict) k = some v := by
  show lookupVal ((collectCandidates rows strict).filterMap
      (fun e => (voteWinner e.2).map (fun w => (e.1, w)))) k = some v
  revert hc
  generalize collectCandidates rows strict = l
  intro hc
  induction l with
  | nil => simp [lookupVal] at hc
  | cons e l ih =>
    by_cases hk : (e.1 == k) = true
    · have hcands : e.2 = cands := by
        unfold lookupVal at hc
        rw [@List.find?_cons_of_pos _ (fun x => x.1 == k) e l hk] at hc
        simpa using hc
      have hg : (fun e => (voteWinner e.2).map (fun w => (e.1, w))) e = some (e.1, v) := by
        show (voteWinner e.2).map (fun w => (e.1, w)) = some (e.1, v)
        rw [hcands, hv]
        rfl
      rw [@List.filterMap_cons_some _ _ (fun e => (voteWinner e.2).map (fun w => (e.1, w))) e l
        (e.1, v) hg]
      unfold lookupVal
      rw [@List.find?_cons_of_pos _ (fun x => x.1 == k) (e.1, v) _ hk]
      rfl
    · have hc' : lookupVal l k = some cands := by
        unfold lookupVal at hc ⊢
        rwa [@List.find?_cons_of_neg _ (fun x => x.1 == k) e l hk] at hc
      cases hw : voteWinner e.2 with
      | none =>
        have hg : (fun e => (voteWinner e.2).map (fun w => (e.1, w))) e = none := by
          show (voteWinner e.2).map (fun w => (e.1, w)) = none
          rw [hw]
          rfl
        rw [@List.filterMap_cons_none _ _ (fun e => (voteWinner e.2).map (fun w => (e.1, w))) e l
          hg]
        exact ih hc'
      | some w =>
        have hg : (fun e => (voteWinner e.2).map (fun w => (e.1, w))) e = some (e.1, w) := by
          show (voteWinner e.2).map (fun w => (e.1, w)) = some (e.1, w)
          rw [hw]
          rfl
        rw [@List.filterMap_cons_some _ _ (fun e => (voteWinner e.2).map (fun w => (e.1, w))) e l
          (e.1, w) hg]
        have hres := ih hc'
        unfold lookupVal at hres ⊢
        rw [@List.find?_cons_of_neg _ (fun x => x.1 == k) (e.1, w) _ hk]
        exact hres

/-! ### Claim C3 -/

/-- C3: for every column `k` whose collected candidate list is `cands`, if a
canonical key `κ` occurs on a strict majority of the candidates, then
`inferTypes` selects a descriptor whose canonical key is `κ` for that
column; and in general the selected key's occurrence count is maximal among
all keys of the column's candidates. -/
theorem claim3_majority (rows : List Record) (strict : Bool) (k κ : String)
    (cands : List JSType)
    (hc : lookupVal (collectCandidates rows strict) k = some cands)
    (hm : 2 * (keyList cands).count κ > cands.length) :
    ∃ v, lookupVal (inferTypes (JSData.arr rows) strict) k = some v ∧ jsPropKey v = κ ∧
      ∀ κ', (keyList cands).count κ' ≤ (keyList cands).count κ := by
  have hne : cands ≠ [] := by
    intro h
    subst h
    simp [keyList] at hm
  obtain ⟨v, hw, hkmem, _, hmax, _⟩ := voteWinner_spec cands hne
  have hlen : (keyList cands).length = cands.length := by simp [keyList]
  have hkeq : jsPropKey v = κ := by
    by_contra hneq
    have h1 : (keyList cands).count κ ≤ (keyList cands).count (jsPropKey v) := hmax κ
    have h2 : (keyList cands).count (jsPropKey v) + (keyList cands).count κ ≤
        (keyList cands).length := count_add_count_le _ _ _ (fun h => hneq h)
    omega
  refine ⟨v, lookupVal_inferTypes hc hw, hkeq, ?_⟩
  intro κ'
  have h1 := hmax κ'
  rw [hkeq] at h1
  exact h1

/-- Witness for C3 at the spec's example 1: `[{a: "3"}, {a: "4"}, {a: "x"}]`
has a 2-of-3 majority of `"number"` candidates in column `a`. -/
theorem claim3_witness :
    ∃ v, lookupVal (inferTypes (JSData.arr
        [[("a", RawValue.vstr "3")], [("a", RawValue.vstr "4")], [("a", RawValue.vstr "x")]])
        false) "a" = some v ∧ jsPropKey v = "number" ∧
      ∀ κ', (keyList [JSType.jstr "number", JSType.jstr "number", JSType.jstr "string"]).count κ' ≤
        (keyList [JSType.jstr "number", JSType.jstr "number", JSType.jstr "string"]).count
          "number" :=
  claim3_majority
    [[("a", RawValue.vstr "3")], [("a", RawValue.vstr "4")], [("a", RawValue.vstr "x")]]
    false "a" "number" [JSType.jstr "number", JSType.jstr "number", JSType.jstr "string"]
    rfl (by decide)

/-! ### Claim C5 -/

/-- C5: for every column whose collected candidate list is nonempty,
`inferTypes` selects a descriptor whose canonical key has a maximal
occurrence count, and whenever another key's count equals the winner's (a
tie), the winner's first occurrence in scan order is no later — i.e. the
first-encountered key among the tied maxima wins; and the computation is
deterministic (repeated calls on the same input are equal — the embedded
`inferTypes` is a pure function of its input). -/
theorem claim5_tiebreak (rows : List Record) (strict : Bool) (k : String)
    (cands : List JSType)
    (hc : lookupVal (collectCandidates rows strict) k = some cands) (hne : cands ≠ []) :
    ∃ v, lookupVal (inferTypes (JSData.arr rows) strict) k = some v ∧
      (∀ κ, (keyList cands).count κ ≤ (keyList cands).count (jsPropKey v)) ∧
      (∀ κ, (keyList cands).count κ = (keyList cands).count (jsPropKey v) →
        firstIdx (keyList cands) (jsPropKey v) ≤ firstIdx (keyList cands) κ) ∧
      inferTypes (JSData.arr rows) strict = inferTypes (JSData.arr rows) strict := by
  obtain ⟨v, hw, _, _, hmax, htie⟩ := voteWinner_spec cands hne
  exact ⟨v, lookupVal_inferTypes hc hw, hmax, htie, rfl⟩

/-- Witness for C5 on a one-one tie: in `[{a: "x"}, {a: "3"}]` the keys
`"string"` and `"number"` each occur once, and the first-seen `"string"`
wins. -/
theorem claim5_witness :
    ∃ v, lookupVal (inferTypes (JSData.arr [[("a", RawValue.vstr "x")],
        [("a", RawValue.vstr "3")]]) false) "a" = some v ∧
      (∀ κ, (keyList [JSType.jstr "string", JSType.jstr "number"]).count κ ≤
        (keyList [JSType.jstr "string", JSType.jstr "number"]).count (jsPropKey v)) ∧
      (∀ κ, (keyList [JSType.jstr "string", JSType.jstr "number"]).count κ =
          (keyList [JSType.jstr "string", JSType.jstr "number"]).count (jsPropKey v) →
        firstIdx (keyList [JSType.jstr "string", JSType.jstr "number"]) (jsPropKey v) ≤
          firstIdx (keyList [JSType.jstr "string", JSType.jstr "number"]) κ) ∧
      inferTypes (JSData.arr [[("a", RawValue.vstr "x")], [("a", RawValue.vstr "3")]]) false =
        inferTypes (JSData.arr [[("a", RawValue.vstr "x")], [("a", RawValue.vstr "3")]]) false :=
  claim5_tiebreak [[("a", RawValue.vstr "x")], [("a", RawValue.vstr "3")]] false "a"
    [JSType.jstr "string", JSType.jstr "number"] rfl (List.cons_ne_nil _ _)

/-! ### Claim C4 -/

/-- C4 fails as stated: a configured-date candidate is NOT reduced to a
composite key before tallying — `castTypeToString` returns the descriptor
object unchanged (a plain object has no `name`), and as a property key
every such object collapses to `"[object Object]"`, so two configured-date
candidates with distinct format strings tally under the SAME key. -/
theorem claim4_counterexample :
    castTypeToString (JSType.jobj "YYYY-MM-DD") = JSType.jobj "YYYY-MM-DD" ∧
    jsPropKey (castTypeToString (JSType.jobj "YYYY-MM-DD")) =
      jsPropKey (castTypeToString (JSType.jobj "DD/MM/YYYY")) :=
  ⟨rfl, rfl⟩

/-- C4 (amended): before vote tallying, `castTypeToString` reduces a
constructor label to its lowercase name and leaves a primitive string label
(already its own name) unchanged; but a configured-date candidate passes
through unchanged as an object, and at tally time every such object
coerces to the single property key `"[object Object]"` — so distinct
format strings would share one key rather than tally under distinct keys.
The winning descriptor is not reconstructed from its key: the tally stores,
and the vote returns, the first candidate encountered under the winning
key.  (Since `getValueType` emits only the single format `YYYY-MM-DD`, all
configured-date candidates still group together in practice.) -/
theorem claim4_amended :
    (∀ s, castTypeToString (JSType.jstr s) = JSType.jstr s) ∧
    (∀ t, castTypeToString (JSType.ctor t) = JSType.jstr (lowerStr (ctorName t))) ∧
    (∀ fmt, castTypeToString (JSType.jobj fmt) = JSType.jobj fmt ∧
      jsPropKey (castTypeToString (JSType.jobj fmt)) = "[object Object]") ∧
    (∀ cands, ∀ e ∈ tally cands, cands.find? (fun c => jsPropKey c == e.1) = some e.2.2) := by
  refine ⟨fun s => rfl, fun t => rfl, fun fmt => ⟨rfl, rfl⟩, ?_⟩
  intro cands e he
  exact (tallyInv_tally cands).firstVal e he

end RawGraphs
